import Mathlib

/-! # agent-bridge: verification of the audio send pipeline and the SFU signaling model

Shallow embedding of the Go sources of the agent-bridge repository:

* `pkg/audio/encoder.go` — `ResampleMono`, `MonoToStereo`, the
  `AudioPipeline` (`ProcessChunk` / `Flush` / `Reset`);
* the programmatic client (`client` package) — the RTP send state of
  `Client.WriteOpus` and `Client.Disconnect`;
* the SFU signaling server (`server` package) — `Room`, `RoomManager`,
  `handleJoin`, `handleScreenshot`, `handlePeerDisconnect` and the
  per-connection dispatch loop of `handleWebSocket`.

Modelling conventions: bytes are naturals (uint8 semantics made explicit
with `% 256` where byte values are computed), machine integers are naturals
with explicit `% 2^w` at the points where the Go code wraps, Go maps are
association lists with unique keys, Go slices read through a bounds-checked
accessor so that an out-of-range access is a visible fault (`none`), and the
external media stack (WebRTC peer connections, the Opus C codec) is treated
as succeeding, with its float64 arithmetic abstracted into explicit oracle
parameters.  Messages written to signaling sockets are collected as
`(recipient peer id, message)` pairs.
-/

namespace Audio

/-- One 20 ms frame of 48 kHz interleaved stereo s16le PCM:
`960 * 2 * 2` bytes (the local `frameBytes` of `AudioPipeline.ProcessChunk`
and `AudioPipeline.Flush` in `pkg/audio/encoder.go`). -/
def frameBytes : ℕ := 960 * 2 * 2

/-- `binary.LittleEndian.Uint16` followed by the `int16` cast, as on the
sample reads of `ResampleMono`: two bytes (uint8 values, hence `% 256`)
read low byte first and reinterpreted as a signed 16-bit value. -/
def toInt16 (lo hi : ℕ) : ℤ :=
  let u := lo % 256 + 256 * (hi % 256)
  if u < 32768 then (u : ℤ) else (u : ℤ) - 65536

/-- `binary.LittleEndian.PutUint16` of the `uint16` cast of a signed 16-bit
value: two's-complement reduction mod 2^16, written low byte first. -/
def le16 (v : ℤ) : List ℕ :=
  [(v % 65536).toNat % 256, (v % 65536).toNat / 256]

/-- Oracle standing for the `float64` arithmetic inside `ResampleMono`
(one oracle per call; the rates are fixed during a call).
`outCount` is `int(float64(inputSamples) * ratio)`; `srcIdx i` is
`int(srcPos)` for `srcPos := float64(i) / ratio` (truncation of a
nonnegative float, hence a natural); `mix s1 s2 i` is
`int16(float64(s1)*(1-frac) + float64(s2)*frac)`.  Every theorem below
either holds for all oracles (safety, buffer mechanics) or is stated for
all oracles inside the IEEE-754 error bound of the concrete computation
(frame counting), so no particular floating-point rounding is assumed. -/
structure ResampleOracle where
  outCount : ℕ
  srcIdx : ℕ → ℕ
  mix : ℤ → ℤ → ℕ → ℤ

/-- Go slice indexing: reading at a negative or past-the-end index is a
bounds fault, modelled as `none`. -/
def byteAt (l : List ℕ) (i : ℤ) : Option ℕ :=
  if i < 0 then none else l.get? i.toNat

/-- The clamp of the first interpolation index in `ResampleMono`:
`idx1 := srcIdx; if idx1 >= inputSamples { idx1 = inputSamples - 1 }` —
Go `int` arithmetic, so the clamp target is `-1` when `inputSamples = 0`. -/
def clampIdx1 (inputSamples srcIdx : ℕ) : ℤ :=
  if inputSamples ≤ srcIdx then (inputSamples : ℤ) - 1 else srcIdx

/-- The clamp of the second interpolation index in `ResampleMono`:
`idx2 := srcIdx + 1; if idx2 >= inputSamples { idx2 = inputSamples - 1 }`. -/
def clampIdx2 (inputSamples srcIdx : ℕ) : ℤ :=
  if inputSamples ≤ srcIdx + 1 then (inputSamples : ℤ) - 1 else srcIdx + 1

/-- Body of the `ResampleMono` output loop at output sample `i` of
`pkg/audio/encoder.go`: clamp both interpolation indices, read the two
source samples (each two bytes; a fault in any read faults the whole body),
interpolate (`mix`), and write the two little-endian bytes of the result. -/
def resampleSample (input : List ℕ) (inputSamples : ℕ) (o : ResampleOracle)
    (i : ℕ) : Option (List ℕ) :=
  match byteAt input (clampIdx1 inputSamples (o.srcIdx i) * 2),
        byteAt input (clampIdx1 inputSamples (o.srcIdx i) * 2 + 1),
        byteAt input (clampIdx2 inputSamples (o.srcIdx i) * 2),
        byteAt input (clampIdx2 inputSamples (o.srcIdx i) * 2 + 1) with
  | some lo1, some hi1, some lo2, some hi2 =>
      some (le16 (o.mix (toInt16 lo1 hi1) (toInt16 lo2 hi2) i))
  | _, _, _, _ => none

/-- The `ResampleMono` output loop, output samples `0 .. n-1` concatenated
in order; `none` as soon as any read faults. -/
def gatherSamples (input : List ℕ) (inputSamples : ℕ) (o : ResampleOracle) :
    ℕ → Option (List ℕ)
  | 0 => some []
  | n + 1 => do
    let rest ← gatherSamples input inputSamples o n
    let b ← resampleSample input inputSamples o n
    some (rest ++ b)

/-- `ResampleMono` from `pkg/audio/encoder.go`: the input is returned
unchanged when the rates are equal; otherwise linear-interpolation
resampling with `inputSamples = len(input)/2` and `outputSamples`
given by the float oracle (see `ResampleOracle`). -/
def ResampleMono (o : ResampleOracle) (input : List ℕ)
    (inputRate outputRate : ℕ) : Option (List ℕ) :=
  if inputRate = outputRate then some input
  else gatherSamples input (input.length / 2) o o.outCount

/-- `MonoToStereo` from `pkg/audio/encoder.go`: `numSamples = len/2` pairs
of bytes, each duplicated into the left and the right channel; a trailing
odd byte is dropped (it is past `numSamples*2`). -/
def MonoToStereo : List ℕ → List ℕ
  | b0 :: b1 :: rest => b0 :: b1 :: b0 :: b1 :: MonoToStereo rest
  | _ => []

/-- Modelled from the spec: the "average-channels" inverse named by the
round-trip law `MonoToStereo ∘ average-channels = identity` — no such
function exists in the source.  Each 4-byte group of interleaved stereo
s16le is decoded into the two channel samples, the samples are averaged,
and the average is re-encoded as one little-endian 16-bit sample. -/
def averageChannels : List ℕ → List ℕ
  | b0 :: b1 :: b2 :: b3 :: rest =>
      le16 ((toInt16 b0 b1 + toInt16 b2 b3) / 2) ++ averageChannels rest
  | _ => []

/-- The frame-draining loop shared by `ProcessChunk` and `Flush`:
`for len(p.buffer) >= frameBytes`, split off the first `frameBytes` bytes
as one frame.  Returns (frames in order, remaining buffer). -/
def drainFrames (buf : List ℕ) : List (List ℕ) × List ℕ :=
  if frameBytes ≤ buf.length then
    let r := drainFrames (buf.drop frameBytes)
    (buf.take frameBytes :: r.1, r.2)
  else ([], buf)
termination_by buf.length
decreasing_by simp_all [frameBytes]; omega

/-- `AudioPipeline` state: the byte buffer accumulating 48 kHz interleaved
stereo PCM.  The Opus encoder handle is the external C library; the frames
a pipeline operation returns here are the PCM frames handed to
`encoder.EncodeBytes`, one emitted Opus frame each when encoding succeeds
(on an encoder error the Go code drops that frame and continues). -/
structure AudioPipeline where
  buffer : List ℕ
deriving DecidableEq, Repr

/-- `NewAudioPipeline`: empty buffer. -/
def AudioPipeline.fresh : AudioPipeline := ⟨[]⟩

/-- `AudioPipeline.ProcessChunk`: nothing on an empty chunk; otherwise
resample 22050 → 48000 (mono), upmix to stereo, append to the buffer and
drain every whole 3840-byte frame.  `none` models a bounds fault inside
`ResampleMono`. -/
def AudioPipeline.ProcessChunk (o : ResampleOracle) (p : AudioPipeline)
    (chunk : List ℕ) : Option (List (List ℕ) × AudioPipeline) :=
  if chunk = [] then some ([], p)
  else do
    let mono ← ResampleMono o chunk 22050 48000
    let d := drainFrames (p.buffer ++ MonoToStereo mono)
    some (d.1, ⟨d.2⟩)

/-- `AudioPipeline.Flush`: if the buffer is non-empty, append
`frameBytes - len % frameBytes` zero bytes (`make([]byte, …)` zero-fills)
and drain the whole frames; otherwise nothing. -/
def AudioPipeline.Flush (p : AudioPipeline) : List (List ℕ) × AudioPipeline :=
  if 0 < p.buffer.length then
    let d := drainFrames
      (p.buffer ++ List.replicate (frameBytes - p.buffer.length % frameBytes) 0)
    (d.1, ⟨d.2⟩)
  else ([], p)

/-- `AudioPipeline.Reset`: `p.buffer = p.buffer[:0]`, emitting nothing. -/
def AudioPipeline.Reset (_ : AudioPipeline) : AudioPipeline := ⟨[]⟩

/-- Pipeline states reachable from `NewAudioPipeline` through the public
operations (`ProcessChunk` with any chunk and any float behaviour, `Flush`,
`Reset`). -/
inductive Reachable : AudioPipeline → Prop
  | fresh : Reachable .fresh
  | processChunk {p p' : AudioPipeline} {o : ResampleOracle} {chunk : List ℕ}
      {fs : List (List ℕ)} : Reachable p →
      p.ProcessChunk o chunk = some (fs, p') → Reachable p'
  | flush {p : AudioPipeline} : Reachable p → Reachable (p.Flush).2
  | reset {p : AudioPipeline} : Reachable p → Reachable (p.Reset)

end Audio

/-- `SignalMessage`, identical in the `server` and `client` packages: a
tagged JSON record; absent optional fields are the empty string
(`omitempty`). -/
structure SignalMessage where
  type : String
  room : String
  client_id : String
  sdp : String
  candidate : String
  data : String
  target_id : String
deriving DecidableEq, Repr

/-- The `join` message a client sends (`Type`, `Room`, `ClientID`). -/
def joinMsg (room cid : String) : SignalMessage :=
  ⟨"join", room, cid, "", "", "", ""⟩

/-- The `peer_joined` notification `handleJoin` broadcasts. -/
def peerJoinedMsg (cid : String) : SignalMessage :=
  ⟨"peer_joined", "", cid, "", "", "", ""⟩

/-- The `peer_left` notification `handlePeerDisconnect` broadcasts. -/
def peerLeftMsg (cid : String) : SignalMessage :=
  ⟨"peer_left", "", cid, "", "", "", ""⟩

/-- The offer `triggerNegotiation` sends; the SDP body comes from the
external media stack and is abstracted to the empty string. -/
def offerMsg : SignalMessage :=
  ⟨"offer", "", "", "", "", "", ""⟩

/-- A `screenshot` message as sent by a client (`target_id`, `data`). -/
def screenshotTo (tid payload : String) : SignalMessage :=
  ⟨"screenshot", "", "", "", "", payload, tid⟩

/-- A `screenshot` message as forwarded by the server
(`client_id = sender`, `data` unchanged). -/
def screenshotFrom (cid payload : String) : SignalMessage :=
  ⟨"screenshot", "", cid, "", "", payload, ""⟩

/-- An RTP packet as filled in by `Client.WriteOpus` (the `rtp.Packet`
header fields that the code sets, plus the Opus payload verbatim). -/
structure RTPPacket where
  version : ℕ
  payloadType : ℕ
  sequenceNumber : ℕ
  timestamp : ℕ
  ssrc : ℕ
  payload : List ℕ
deriving DecidableEq, Repr

/-- The `client.Client` state the claims touch: the `connected` flag and the
`done` channel governing `Disconnect`, whether `audioTrack` has been
initialised by `Connect`, and the RTP send state (`rtpSeqNum` is a uint16,
`rtpTimestamp` a uint32, both updated under `rtpMu`).  The WebSocket, the
peer connection and the callbacks live in the external media stack. -/
structure Client where
  connected : Bool
  doneClosed : Bool
  audioTrackInit : Bool
  rtpSeqNum : ℕ
  rtpTimestamp : ℕ
deriving DecidableEq, Repr

/-- `Client.Disconnect`: returns at once when not connected; otherwise
closes the `done` channel, the peer connection and the socket (external
effects) and clears `connected`. -/
def Client.Disconnect (c : Client) : Client :=
  if c.connected then { c with connected := false, doneClosed := true } else c

/-- `Client.WriteOpus`: errors when `audioTrack` is nil; otherwise emits one
RTP packet carrying the current `(rtpSeqNum, rtpTimestamp)` pair and
advances the pair by `(1, 960)` with the natural uint16/uint32 wrap. -/
def Client.WriteOpus (c : Client) (opusData : List ℕ) : Option (RTPPacket × Client) :=
  if c.audioTrackInit then
    some (⟨2, 111, c.rtpSeqNum, c.rtpTimestamp, 0x12345678, opusData⟩,
      { c with rtpSeqNum := (c.rtpSeqNum + 1) % 65536,
               rtpTimestamp := (c.rtpTimestamp + 960) % 4294967296 })
  else none

/-- `n` consecutive `WriteOpus` calls with payloads `pl 0, pl 1, …`,
collecting the emitted packets; the sequence stops at the first error. -/
def Client.writeOpusN (pl : ℕ → List ℕ) (c : Client) : ℕ → List RTPPacket × Client
  | 0 => ([], c)
  | n + 1 =>
    match c.WriteOpus (pl 0) with
    | some (pkt, c') =>
      let r := Client.writeOpusN (fun k => pl (k + 1)) c' n
      (pkt :: r.1, r.2)
    | none => ([], c)

namespace Server

/-- Go map assignment `m[k] = v` on an association list: replace the
existing binding, else append. -/
def upsert {β : Type} (k : String) (v : β) : List (String × β) → List (String × β)
  | [] => [(k, v)]
  | (k', v') :: rest => if k' = k then (k, v) :: rest else (k', v') :: upsert k v rest

/-- `server.Peer`: identity, back-reference to its room (a pointer in Go,
here the room's key, set by `AddPeer` and never cleared), and the
`LocalTracks` map of forwarding tracks (keyed by remote track id; created
only by the media stack's `OnTrack` callback, so empty at join).  The
WebSocket and the peer connection are external. -/
structure Peer where
  id : String
  room : Option String
  localTracks : List String
deriving DecidableEq, Repr

/-- `server.Room`: identity and the `Peers` map (`peer_id → Peer`). -/
structure Room where
  id : String
  peers : List (String × Peer)
deriving DecidableEq, Repr

/-- `Room.AddPeer`: `r.Peers[peer.ID] = peer; peer.Room = r`.  The stored
peer and the returned peer are the same (pointer) value, so both carry the
back-reference. -/
def Room.AddPeer (r : Room) (p : Peer) : Room × Peer :=
  let p' : Peer := { p with room := some r.id }
  ({ r with peers := upsert p.id p' r.peers }, p')

/-- `Room.RemovePeer`: `delete(r.Peers, peerID)`. -/
def Room.RemovePeer (r : Room) (pid : String) : Room :=
  { r with peers := r.peers.filter (fun kv => kv.1 != pid) }

/-- `Room.BroadcastExcept`: send `msg` to every peer whose map key differs
from `excludeID`; a per-recipient send failure would not abort the loop, so
the delivered set is the whole filtered map. -/
def Room.BroadcastExcept (r : Room) (exclude : String) (msg : SignalMessage) :
    List (String × SignalMessage) :=
  (r.peers.filter (fun kv => kv.1 != exclude)).map (fun kv => (kv.2.id, msg))

/-- `Room.GetOtherPeers`: all peers except the given key. -/
def Room.GetOtherPeers (r : Room) (exclude : String) : List Peer :=
  (r.peers.filter (fun kv => kv.1 != exclude)).map (fun kv => kv.2)

/-- `Room.GetPeer`: map lookup, nil (`none`) when absent. -/
def Room.GetPeer (r : Room) (pid : String) : Option Peer :=
  List.lookup pid r.peers

/-- The process-wide `RoomManager` state: `room_id → Room`. -/
structure ServerState where
  rooms : List (String × Room)
deriving DecidableEq, Repr

/-- The freshly started server: `roomManager` with no rooms. -/
def emptyState : ServerState := ⟨[]⟩

/-- `RoomManager.GetOrCreateRoom`: return the existing room or insert a
fresh empty one under the registry lock. -/
def GetOrCreateRoom (s : ServerState) (rid : String) : ServerState × Room :=
  match List.lookup rid s.rooms with
  | some r => (s, r)
  | none =>
    let r : Room := ⟨rid, []⟩
    (⟨upsert rid r s.rooms⟩, r)

/-- The peer map of room `rid` in state `s` (empty when the room does not
exist). -/
def ServerState.peersOf (s : ServerState) (rid : String) : List (String × Peer) :=
  match List.lookup rid s.rooms with
  | some r => r.peers
  | none => []

/-- `handleJoin` (success path of `createPeerConnection`): construct the
Peer, get-or-create the room, broadcast `peer_joined{client_id=new.id}` to
the room's peers **before** `AddPeer`, insert the new peer, add every
forwarding track of every other peer to the new peer (each
`addTrackToPeer` call ends in `triggerNegotiation`, i.e. one offer to the
new peer per track), and send the initial offer.  The ICE / OnTrack /
connection-state callbacks only register media-stack handlers and send
nothing at join time. -/
def handleJoin (s : ServerState) (msg : SignalMessage) :
    ServerState × List (String × SignalMessage) × Peer :=
  let peer : Peer := ⟨msg.client_id, none, []⟩
  let sr := GetOrCreateRoom s msg.room
  let room := sr.2
  let out1 := room.BroadcastExcept peer.id (peerJoinedMsg peer.id)
  let ap := room.AddPeer peer
  let s2 : ServerState := ⟨upsert msg.room ap.1 sr.1.rooms⟩
  let out2 := ((ap.1.GetOtherPeers peer.id).map
      (fun e => e.localTracks.map (fun _ => (peer.id, offerMsg)))).flatten
  (s2, out1 ++ out2 ++ [(peer.id, offerMsg)], ap.2)

/-- `handleScreenshot`: dropped when the sender has no room or `target_id`
is empty; dropped when the target is not in the sender's room; otherwise
forwarded to exactly the target as
`screenshot{client_id=sender.id, data=<unchanged>}`.  No state change, no
reply to the sender. -/
def handleScreenshot (s : ServerState) (p : Peer) (msg : SignalMessage) :
    List (String × SignalMessage) :=
  match p.room with
  | none => []
  | some rid =>
    if msg.target_id = "" then []
    else
      match List.lookup rid s.rooms with
      | none => []
      | some r =>
        match r.GetPeer msg.target_id with
        | none => []
        | some t => [(t.id, screenshotFrom p.id msg.data)]

/-- `handlePeerDisconnect`: if the peer's room back-reference is set (it is
never cleared), `RemovePeer` then `BroadcastExcept` of
`peer_left{client_id=P.id}` over the post-removal map; finally the peer
connection is closed (external). -/
def handlePeerDisconnect (s : ServerState) (p : Peer) :
    ServerState × List (String × SignalMessage) :=
  match p.room with
  | none => (s, [])
  | some rid =>
    match List.lookup rid s.rooms with
    | none => (s, [])
    | some r =>
      let r' := r.RemovePeer p.id
      let out := r'.BroadcastExcept p.id (peerLeftMsg p.id)
      (⟨upsert rid r' s.rooms⟩, out)

/-- One iteration of the `handleWebSocket` receive loop on a successfully
parsed message: `cur` is the connection's `peer` variable.  The `join` case
assigns `peer = handleJoin(conn, msg)` with no guard on `peer` already
being set; `offer`/`answer`/`candidate` only drive the external media
stack; unknown types are ignored. -/
def handleWebSocketStep (s : ServerState) (cur : Option Peer)
    (msg : SignalMessage) : ServerState × Option Peer × List (String × SignalMessage) :=
  match msg.type with
  | "join" =>
    let j := handleJoin s msg
    (j.1, some j.2.2, j.2.1)
  | "screenshot" =>
    match cur with
    | some p => (s, cur, handleScreenshot s p msg)
    | none => (s, cur, [])
  | _ => (s, cur, [])

end Server

/-! ## Helper lemmas: frame draining and pipeline buffer mechanics -/

namespace Audio

theorem drainFrames_spec (buf : List ℕ) :
    (drainFrames buf).1.length = buf.length / frameBytes ∧
    (drainFrames buf).2.length = buf.length % frameBytes := by
  induction buf using drainFrames.induct with
  | case1 buf h ih =>
    rw [drainFrames, if_pos h]
    have h1 := ih.1; have h2 := ih.2
    simp only [List.length_drop] at h1 h2
    refine ⟨?_, ?_⟩
    · show (buf.take frameBytes :: (drainFrames (buf.drop frameBytes)).1).length = _
      simp only [List.length_cons, h1]
      simp only [frameBytes] at *
      omega
    · show (drainFrames (buf.drop frameBytes)).2.length = _
      rw [h2]
      simp only [frameBytes] at *
      omega
  | case2 buf h =>
    rw [drainFrames, if_neg h]
    simp only [frameBytes] at *
    refine ⟨?_, ?_⟩ <;> simp <;> omega

theorem drainFrames_of_lt (buf : List ℕ) (h : buf.length < frameBytes) :
    drainFrames buf = ([], buf) := by
  rw [drainFrames, if_neg (by omega)]

theorem drainFrames_exact (buf : List ℕ) (h : buf.length = frameBytes) :
    drainFrames buf = ([buf], []) := by
  have hd : buf.drop frameBytes = [] := List.drop_eq_nil_of_le (by omega)
  rw [drainFrames, if_pos (by omega)]
  show (buf.take frameBytes :: (drainFrames (buf.drop frameBytes)).1,
        (drainFrames (buf.drop frameBytes)).2) = _
  rw [hd, drainFrames_of_lt [] (by simp [frameBytes]), List.take_of_length_le (by omega)]

theorem Flush_buffer_empty (p : AudioPipeline) : (p.Flush).2.buffer = [] := by
  unfold AudioPipeline.Flush
  split
  · next h =>
    have h2 := (drainFrames_spec
      (p.buffer ++ List.replicate (frameBytes - p.buffer.length % frameBytes) 0)).2
    simp only [List.length_append, List.length_replicate] at h2
    show (drainFrames _).2 = _
    apply List.length_eq_zero.mp
    rw [h2]
    simp only [frameBytes] at *
    omega
  · next h =>
    show p.buffer = []
    exact List.length_eq_zero.mp (by omega)

theorem ProcessChunk_buffer_lt {o : ResampleOracle} {p : AudioPipeline}
    {chunk : List ℕ} {fs : List (List ℕ)} {p' : AudioPipeline}
    (h : p.ProcessChunk o chunk = some (fs, p'))
    (hbuf : p.buffer.length < frameBytes) : p'.buffer.length < frameBytes := by
  unfold AudioPipeline.ProcessChunk at h
  split at h
  · simp only [Option.some.injEq, Prod.mk.injEq] at h
    rw [← h.2]
    exact hbuf
  · cases hm : ResampleMono o chunk 22050 48000 with
    | none => rw [hm] at h; simp at h
    | some mono =>
      rw [hm] at h
      simp only [Option.bind_eq_bind, Option.some_bind, Option.some.injEq,
        Prod.mk.injEq] at h
      have h2 := (drainFrames_spec (p.buffer ++ MonoToStereo mono)).2
      rw [← h.2]
      show (drainFrames (p.buffer ++ MonoToStereo mono)).2.length < frameBytes
      rw [h2]
      simp only [frameBytes] at *
      omega

/-- C10: after every public `AudioPipeline` operation the internal PCM
buffer holds strictly fewer than `frameBytes = 3840` bytes — every
reachable state satisfies the bound, `ProcessChunk` leaves exactly
`total % 3840` bytes behind, `Flush` and `Reset` leave the buffer empty —
and the bound caps `Flush` at one emitted frame. -/
theorem pipeline_buffer_invariant (p : Audio.AudioPipeline) (h : Audio.Reachable p) :
    p.buffer.length < frameBytes ∧
    (∀ o chunk fs p', p.ProcessChunk o chunk = some (fs, p') →
      p'.buffer.length < frameBytes) ∧
    (p.Flush).2.buffer = [] ∧
    (p.Reset).buffer = [] ∧
    (p.Flush).1.length ≤ 1 := by
  have key : p.buffer.length < frameBytes := by
    induction h with
    | fresh => decide
    | processChunk hq hstep ih => exact ProcessChunk_buffer_lt hstep ih
    | flush hq ih => rw [Flush_buffer_empty]; decide
    | reset hq ih =>
      show ([] : List ℕ).length < frameBytes
      decide
  refine ⟨key, fun o chunk fs p' hstep => ProcessChunk_buffer_lt hstep key,
    Flush_buffer_empty p, rfl, ?_⟩
  unfold AudioPipeline.Flush
  split
  · next hpos =>
    have h1 := (drainFrames_spec
      (p.buffer ++ List.replicate (frameBytes - p.buffer.length % frameBytes) 0)).1
    simp only [List.length_append, List.length_replicate] at h1
    show (drainFrames _).1.length ≤ 1
    rw [h1]
    simp only [frameBytes] at *
    omega
  · simp

/-- Witness for `pipeline_buffer_invariant` at the fresh pipeline. -/
theorem pipeline_buffer_invariant_witness :
    (Audio.AudioPipeline.fresh).buffer.length < frameBytes :=
  (pipeline_buffer_invariant _ Audio.Reachable.fresh).1

end Audio

namespace Audio

/-- C6: on every pipeline state satisfying the reachable-state buffer bound
(established for all reachable states by the C10 invariant), `Flush`
zero-pads a non-empty trailing partial frame to the 3840-byte boundary and
emits exactly that one final frame leaving the buffer empty, `Flush` of an
empty buffer emits nothing, `Reset` discards the buffer and by its
signature emits nothing, and a `Flush` followed by a `Reset` emits at most
one additional frame (the `Reset` contributes none). -/
theorem flush_pads_and_reset_discards (p : Audio.AudioPipeline)
    (hinv : p.buffer.length < Audio.frameBytes) :
    (p.buffer ≠ [] →
      (p.Flush).1 = [p.buffer ++ List.replicate (frameBytes - p.buffer.length) 0] ∧
      (p.Flush).2.buffer = []) ∧
    (p.buffer = [] → (p.Flush).1 = [] ∧ (p.Flush).2.buffer = []) ∧
    (p.Reset).buffer = [] ∧
    ((p.Flush).2.Reset).buffer = [] ∧
    (p.Flush).1.length ≤ 1 := by
  have hle1 : (p.Flush).1.length ≤ 1 := by
    unfold AudioPipeline.Flush
    split
    · next hpos =>
      have h1 := (drainFrames_spec
        (p.buffer ++ List.replicate (frameBytes - p.buffer.length % frameBytes) 0)).1
      simp only [List.length_append, List.length_replicate] at h1
      show (drainFrames _).1.length ≤ 1
      rw [h1]
      simp only [frameBytes] at *
      omega
    · simp
  refine ⟨?_, ?_, rfl, rfl, hle1⟩
  · intro hne
    have hpos : 0 < p.buffer.length := by
      cases hp : p.buffer with
      | nil => exact absurd hp hne
      | cons a l => simp [hp]
    have hmod : p.buffer.length % frameBytes = p.buffer.length :=
      Nat.mod_eq_of_lt hinv
    have hlen : (p.buffer ++ List.replicate (frameBytes - p.buffer.length) 0).length
        = frameBytes := by
      simp only [List.length_append, List.length_replicate]
      omega
    unfold AudioPipeline.Flush
    rw [if_pos hpos, hmod]
    rw [drainFrames_exact _ hlen]
    exact ⟨rfl, rfl⟩
  · intro he
    have : ¬ 0 < p.buffer.length := by simp [he]
    unfold AudioPipeline.Flush
    rw [if_neg this]
    exact ⟨rfl, he⟩

/-- Witness for `flush_pads_and_reset_discards` on the pipeline holding the
three bytes `[1, 2, 3]`. -/
theorem flush_pads_and_reset_discards_witness :
    ((⟨[1, 2, 3]⟩ : Audio.AudioPipeline).Flush).1
      = [[1, 2, 3] ++ List.replicate (Audio.frameBytes - 3) 0] ∧
    ((⟨[1, 2, 3]⟩ : Audio.AudioPipeline).Flush).2.buffer = [] :=
  (flush_pads_and_reset_discards ⟨[1, 2, 3]⟩ (by decide)).1 (by decide)

end Audio

/-! ## Helper lemmas: the resampler and the one-second frame count -/

namespace Audio

theorem byteAt_isSome (l : List ℕ) (i : ℤ) (h0 : 0 ≤ i) (hlt : i < (l.length : ℤ)) :
    ∃ b, byteAt l i = some b := by
  unfold byteAt
  rw [if_neg (by omega)]
  have hn : i.toNat < l.length := by omega
  exact ⟨l.get ⟨i.toNat, hn⟩, List.get?_eq_get hn⟩

theorem clampIdx1_bounds (inputSamples srcIdx : ℕ) (hpos : 0 < inputSamples) :
    0 ≤ clampIdx1 inputSamples srcIdx ∧
    clampIdx1 inputSamples srcIdx < (inputSamples : ℤ) := by
  unfold clampIdx1
  split <;> omega

theorem clampIdx2_bounds (inputSamples srcIdx : ℕ) (hpos : 0 < inputSamples) :
    0 ≤ clampIdx2 inputSamples srcIdx ∧
    clampIdx2 inputSamples srcIdx < (inputSamples : ℤ) := by
  unfold clampIdx2
  split <;> omega

theorem resampleSample_some (input : List ℕ) (inputSamples : ℕ) (o : ResampleOracle)
    (i : ℕ) (hpos : 0 < inputSamples) (hlen : 2 * inputSamples ≤ input.length) :
    ∃ b, resampleSample input inputSamples o i = some b ∧ b.length = 2 := by
  have key : ∀ j : ℤ, 0 ≤ j → j < (inputSamples : ℤ) →
      (∃ b, byteAt input (j * 2) = some b) ∧ (∃ b, byteAt input (j * 2 + 1) = some b) :=
    fun j h0 hj =>
      ⟨byteAt_isSome input (j * 2) (by omega) (by omega),
       byteAt_isSome input (j * 2 + 1) (by omega) (by omega)⟩
  obtain ⟨h1, h2⟩ := clampIdx1_bounds inputSamples (o.srcIdx i) hpos
  obtain ⟨h3, h4⟩ := clampIdx2_bounds inputSamples (o.srcIdx i) hpos
  obtain ⟨⟨a1, ha1⟩, ⟨a2, ha2⟩⟩ := key _ h1 h2
  obtain ⟨⟨c1, hc1⟩, ⟨c2, hc2⟩⟩ := key _ h3 h4
  refine ⟨le16 (o.mix (toInt16 a1 a2) (toInt16 c1 c2) i), ?_, rfl⟩
  unfold resampleSample
  rw [ha1, ha2, hc1, hc2]

theorem gatherSamples_some (input : List ℕ) (inputSamples : ℕ) (o : ResampleOracle)
    (hpos : 0 < inputSamples) (hlen : 2 * inputSamples ≤ input.length) (n : ℕ) :
    ∃ l, gatherSamples input inputSamples o n = some l ∧ l.length = 2 * n := by
  induction n with
  | zero => exact ⟨[], rfl, rfl⟩
  | succ n ih =>
    obtain ⟨l, hl, hllen⟩ := ih
    obtain ⟨b, hb, hblen⟩ := resampleSample_some input inputSamples o n hpos hlen
    refine ⟨l ++ b, ?_, by simp [hllen, hblen]; omega⟩
    simp [gatherSamples, hl, hb]

theorem ResampleMono_length (o : ResampleOracle) (input : List ℕ)
    (inRate outRate : ℕ) (hne : inRate ≠ outRate) (hpos : 0 < input.length / 2) :
    ∃ out, ResampleMono o input inRate outRate = some out ∧
      out.length = 2 * o.outCount := by
  unfold ResampleMono
  rw [if_neg hne]
  exact gatherSamples_some input (input.length / 2) o hpos (by omega) o.outCount

theorem MonoToStereo_length (l : List ℕ) :
    (MonoToStereo l).length = l.length / 2 * 4 := by
  induction l using MonoToStereo.induct with
  | case1 b0 b1 rest ih =>
    simp only [MonoToStereo, List.length_cons, ih]
    omega
  | case2 l h =>
    cases l with
    | nil => simp [MonoToStereo]
    | cons b t =>
      cases t with
      | nil => simp [MonoToStereo]
      | cons b2 t2 => exact absurd rfl (h b b2 t2)

theorem Flush_frame_count (p : AudioPipeline) :
    (p.Flush).1.length
      = if 0 < p.buffer.length
        then (p.buffer.length + (frameBytes - p.buffer.length % frameBytes)) / frameBytes
        else 0 := by
  unfold AudioPipeline.Flush
  split
  · next h =>
    have h1 := (drainFrames_spec
      (p.buffer ++ List.replicate (frameBytes - p.buffer.length % frameBytes) 0)).1
    simp only [List.length_append, List.length_replicate] at h1
    show (drainFrames _).1.length = _
    exact h1
  · rfl

/-- C7: pushing one second of 22,050 Hz mono PCM (44,100 bytes, 22,050
samples) into a fresh pipeline and flushing emits exactly 50 frames in
total.  The float64 `outputSamples` of `ResampleMono` is quantified over
the IEEE-754 error bound around the exact value
`22050 * (48000 / 22050) = 48000` (two correctly rounded operations keep
`int(float64(22050) * ratio)` within `{47999, 48000}`; the concrete
execution gives 48000); either rounding yields 50 frames. -/
theorem one_second_yields_fifty_frames (o : ResampleOracle) (chunk : List ℕ)
    (hlen : chunk.length = 44100)
    (hlo : 47999 ≤ o.outCount) (hhi : o.outCount ≤ 48000) :
    ∃ frames p', Audio.AudioPipeline.fresh.ProcessChunk o chunk = some (frames, p') ∧
      frames.length + ((p'.Flush).1).length = 50 := by
  have hne : chunk ≠ [] := by
    intro h
    rw [h] at hlen
    simp at hlen
  obtain ⟨mono, hm, hmlen⟩ := ResampleMono_length o chunk 22050 48000 (by decide)
    (by rw [hlen]; decide)
  have hstereo : (MonoToStereo mono).length = 4 * o.outCount := by
    rw [MonoToStereo_length, hmlen]
    omega
  refine ⟨(drainFrames (AudioPipeline.fresh.buffer ++ MonoToStereo mono)).1,
    ⟨(drainFrames (AudioPipeline.fresh.buffer ++ MonoToStereo mono)).2⟩, ?_, ?_⟩
  · unfold AudioPipeline.ProcessChunk
    rw [if_neg hne, hm]
    rfl
  · have hd := drainFrames_spec (AudioPipeline.fresh.buffer ++ MonoToStereo mono)
    have hdl : (AudioPipeline.fresh.buffer ++ MonoToStereo mono).length
        = 4 * o.outCount := by
      simpa [AudioPipeline.fresh] using hstereo
    rw [Flush_frame_count]
    show (drainFrames _).1.length + _ = 50
    rw [hd.1]
    simp only [hd.2, hdl]
    have hc : o.outCount = 47999 ∨ o.outCount = 48000 := by omega
    rcases hc with hc | hc <;> rw [hc] <;> decide

/-- Witness for `one_second_yields_fifty_frames`: a silent one-second chunk
and the concrete float behaviour (`outputSamples = 48000`). -/
theorem one_second_yields_fifty_frames_witness :
    ∃ frames p',
      Audio.AudioPipeline.fresh.ProcessChunk ⟨48000, fun _ => 0, fun _ _ _ => 0⟩
        (List.replicate 44100 0) = some (frames, p') ∧
      frames.length + ((p'.Flush).1).length = 50 :=
  one_second_yields_fifty_frames ⟨48000, fun _ => 0, fun _ _ _ => 0⟩
    (List.replicate 44100 0) (by rw [List.length_replicate]) (by decide) (by decide)

end Audio

/-! ## Resampler safety and the mono/stereo round trip -/

namespace Audio

/-- C9 counterexample: with equal input and output rates `ResampleMono`
returns its input unchanged, so a 1-byte input (shorter than one 16-bit
sample) yields a 1-byte output, not the empty output the claim requires
for every pair of positive rates. -/
theorem resample_short_input_cx :
    ResampleMono ⟨0, fun _ => 0, fun _ _ _ => 0⟩ [5] 8000 8000 = some [5] ∧
    ([5] : List ℕ) ≠ [] :=
  ⟨rfl, by decide⟩

/-- C9 (amended): `ResampleMono` terminates (it is a total function) and
performs only in-bounds reads — both interpolation indices are clamped to
the last input sample before use and no read faults — for every input,
every pair of rates and every float behaviour satisfying
`int(float64(0) * ratio) = 0` (`hzero`, an IEEE-754 identity, since
`inputSamples = 0` forces `outputSamples = 0`).  When the rates differ,
input shorter than one sample (including the empty string) yields the
empty output; when the rates are equal the input is returned unchanged. -/
theorem resample_safety (o : ResampleOracle) (input : List ℕ)
    (inRate outRate : ℕ)
    (hzero : input.length / 2 = 0 → o.outCount = 0) :
    (∃ out, ResampleMono o input inRate outRate = some out) ∧
    (inRate ≠ outRate → input.length < 2 →
      ResampleMono o input inRate outRate = some []) ∧
    (inRate = outRate → ResampleMono o input inRate outRate = some input) := by
  by_cases he : inRate = outRate
  · exact ⟨⟨input, by unfold ResampleMono; rw [if_pos he]⟩,
      fun hne _ => absurd he hne,
      fun _ => by unfold ResampleMono; rw [if_pos he]⟩
  · have hmain : ∃ out, ResampleMono o input inRate outRate = some out := by
      by_cases hz : input.length / 2 = 0
      · refine ⟨[], ?_⟩
        unfold ResampleMono
        rw [if_neg he, hz, hzero hz]
        rfl
      · obtain ⟨out, hout, _⟩ :=
          ResampleMono_length o input inRate outRate he (by omega)
        exact ⟨out, hout⟩
    refine ⟨hmain, fun _ hlt => ?_, fun h => absurd h he⟩
    have hz : input.length / 2 = 0 := by omega
    unfold ResampleMono
    rw [if_neg he, hz, hzero hz]
    rfl

/-- Witness for `resample_safety` on the one-sample input `[7, 9]`
resampled 22050 → 48000 with the exact-rational float behaviour. -/
theorem resample_safety_witness :
    (∃ out, ResampleMono ⟨2, fun _ => 0, fun _ _ _ => 0⟩ [7, 9] 22050 48000
      = some out) ∧
    ((22050 : ℕ) ≠ 48000 → ([7, 9] : List ℕ).length < 2 →
      ResampleMono ⟨2, fun _ => 0, fun _ _ _ => 0⟩ [7, 9] 22050 48000 = some []) ∧
    ((22050 : ℕ) = 48000 →
      ResampleMono ⟨2, fun _ => 0, fun _ _ _ => 0⟩ [7, 9] 22050 48000 = some [7, 9]) :=
  resample_safety ⟨2, fun _ => 0, fun _ _ _ => 0⟩ [7, 9] 22050 48000 (by decide)

theorem averageChannels_pair (b0 b1 : ℕ) (h0 : b0 < 256) (h1 : b1 < 256) :
    le16 ((toInt16 b0 b1 + toInt16 b0 b1) / 2) = [b0, b1] := by
  have hdiv : (toInt16 b0 b1 + toInt16 b0 b1) / 2 = toInt16 b0 b1 := by omega
  rw [hdiv]
  simp only [toInt16, le16]
  rw [Nat.mod_eq_of_lt h0, Nat.mod_eq_of_lt h1]
  simp only [List.cons.injEq, and_true]
  split <;> constructor <;> omega

/-- C8: averaging the left and right channels of `MonoToStereo m` gives
back `m` bit-exactly, for every mono s16le byte string `m` of even length
(with genuine byte values `< 256`). -/
theorem monoToStereo_average_roundtrip (m : List ℕ)
    (hbytes : ∀ b ∈ m, b < 256) (heven : m.length % 2 = 0) :
    averageChannels (MonoToStereo m) = m := by
  induction m using MonoToStereo.induct with
  | case1 b0 b1 rest ih =>
    show averageChannels (b0 :: b1 :: b0 :: b1 :: MonoToStereo rest)
      = b0 :: b1 :: rest
    rw [averageChannels]
    rw [averageChannels_pair b0 b1 (hbytes b0 (by simp)) (hbytes b1 (by simp))]
    have ihr := ih (fun b hb => hbytes b (by simp [hb]))
      (by simp only [List.length_cons] at heven ⊢; omega)
    simp [ihr]
  | case2 l h =>
    cases l with
    | nil => rfl
    | cons b t =>
      cases t with
      | nil => simp at heven
      | cons b2 t2 => exact absurd rfl (h b b2 t2)

/-- Witness for `monoToStereo_average_roundtrip` on the two samples
`0x FF01` (negative) and `0x8000` (minimum int16). -/
theorem monoToStereo_average_roundtrip_witness :
    averageChannels (MonoToStereo [1, 255, 0, 128]) = [1, 255, 0, 128] :=
  monoToStereo_average_roundtrip [1, 255, 0, 128] (by decide) (by decide)

end Audio

/-! ## Client RTP send state -/

theorem writeOpusN_spec (pl : ℕ → List ℕ) (c : Client) (n : ℕ)
    (htrack : c.audioTrackInit = true)
    (hseq : c.rtpSeqNum < 65536) (hts : c.rtpTimestamp < 4294967296) :
    (Client.writeOpusN pl c n).1
      = (List.range n).map (fun k =>
          ⟨2, 111, (c.rtpSeqNum + k) % 65536,
           (c.rtpTimestamp + 960 * k) % 4294967296, 0x12345678, pl k⟩) := by
  induction n generalizing pl c with
  | zero => rfl
  | succ n ih =>
    unfold Client.writeOpusN Client.WriteOpus
    rw [if_pos htrack]
    show (_ :: (Client.writeOpusN (fun k => pl (k + 1)) _ n).1) = _
    rw [ih (fun k => pl (k + 1))
      { c with rtpSeqNum := (c.rtpSeqNum + 1) % 65536,
               rtpTimestamp := (c.rtpTimestamp + 960) % 4294967296 }
      htrack ((by omega : (c.rtpSeqNum + 1) % 65536 < 65536))
      ((by omega : (c.rtpTimestamp + 960) % 4294967296 < 4294967296))]
    rw [List.range_succ_eq_map]
    simp only [List.map_cons, List.map_map, List.cons.injEq]
    refine ⟨?_, ?_⟩
    · simp [Nat.mod_eq_of_lt hseq, Nat.mod_eq_of_lt hts]
    · apply List.map_congr_left
      intro k hk
      simp only [Function.comp_apply, RTPPacket.mk.injEq, true_and, and_true]
      constructor <;> omega

/-- C5: over any run of `n` successful `WriteOpus` calls on one connected
client (audio track initialised, RTP state within its uint16/uint32
ranges), the emitted packets carry sequence numbers `(s0 + k) % 2^16` —
a contiguous monotonic sequence modulo 2^16 from the initial value,
incrementing by exactly 1 per packet and wrapping naturally — and
timestamps `(t0 + 960·k) % 2^32`, so each packet's timestamp exceeds the
previous one's by exactly 960 modulo 2^32. -/
theorem writeOpus_rtp_progression (c : Client) (pl : ℕ → List ℕ) (n : ℕ)
    (htrack : c.audioTrackInit = true)
    (hseq : c.rtpSeqNum < 65536) (hts : c.rtpTimestamp < 4294967296) :
    ((Client.writeOpusN pl c n).1.map RTPPacket.sequenceNumber
      = (List.range n).map (fun k => (c.rtpSeqNum + k) % 65536)) ∧
    ((Client.writeOpusN pl c n).1.map RTPPacket.timestamp
      = (List.range n).map (fun k => (c.rtpTimestamp + 960 * k) % 4294967296)) ∧
    (∀ k, k + 1 < n → ∃ t,
      ((Client.writeOpusN pl c n).1.map RTPPacket.timestamp).get? k = some t ∧
      ((Client.writeOpusN pl c n).1.map RTPPacket.timestamp).get? (k + 1)
        = some ((t + 960) % 4294967296)) := by
  have hs := writeOpusN_spec pl c n htrack hseq hts
  rw [hs]
  simp only [List.map_map]
  refine ⟨rfl, rfl, ?_⟩
  intro k hk
  refine ⟨(c.rtpTimestamp + 960 * k) % 4294967296, ?_, ?_⟩
  · simp only [List.get?_map, List.get?_range (show k < n by omega), Option.map_some',
      Function.comp_apply]
  · simp only [List.get?_map, List.get?_range hk, Option.map_some', Function.comp_apply]
    exact congrArg some (by omega)

/-- Witness for `writeOpus_rtp_progression`: three writes on a fresh
connected client. -/
theorem writeOpus_rtp_progression_witness :
    ((Client.writeOpusN (fun _ => []) ⟨true, false, true, 0, 0⟩ 3).1.map
        RTPPacket.sequenceNumber
      = (List.range 3).map (fun k => (0 + k) % 65536)) ∧
    ((Client.writeOpusN (fun _ => []) ⟨true, false, true, 0, 0⟩ 3).1.map
        RTPPacket.timestamp
      = (List.range 3).map (fun k => (0 + 960 * k) % 4294967296)) ∧
    (∀ k, k + 1 < 3 → ∃ t,
      ((Client.writeOpusN (fun _ => []) ⟨true, false, true, 0, 0⟩ 3).1.map
          RTPPacket.timestamp).get? k = some t ∧
      ((Client.writeOpusN (fun _ => []) ⟨true, false, true, 0, 0⟩ 3).1.map
          RTPPacket.timestamp).get? (k + 1) = some ((t + 960) % 4294967296)) :=
  writeOpus_rtp_progression ⟨true, false, true, 0, 0⟩ (fun _ => []) 3
    rfl (by decide) (by decide)

/-! ## Server signaling: join, screenshot and disconnect -/

namespace Server

theorem lookup_upsert_self {β : Type} (k : String) (v : β) (l : List (String × β)) :
    List.lookup k (upsert k v l) = some v := by
  induction l with
  | nil => simp [upsert, List.lookup]
  | cons kv rest ih =>
    obtain ⟨k', v'⟩ := kv
    unfold upsert
    by_cases h : k' = k
    · rw [if_pos h]
      simp [List.lookup]
    · rw [if_neg h]
      have hne : (k == k') = false := by
        simp [Ne.symm h]
      simp [List.lookup, hne, ih]

/-- C1 counterexample: in the canonical two-peer join sequence (`a` then
`b` into room `r`), the later joiner `b` receives no `peer_joined` at all
— the join broadcast goes only to peers already present — refuting "each
observes exactly one `peer_joined` for the other". -/
theorem join_sequence_cx :
    (let j1 := handleJoin emptyState (joinMsg "r" "a")
     let j2 := handleJoin j1.1 (joinMsg "r" "b")
     (j1.2.1 ++ j2.2.1).filter
       (fun q => q.1 == "b" && q.2.type == "peer_joined")) = [] := by
  decide

/-- C1 (amended): joins into an initially empty (or absent) room, `a` then
`b`: the broadcast precedes the insertion, so its recipients are exactly
the peers present before the join — the earlier peer `a` observes exactly
one `peer_joined`, carrying `b`'s id; the later peer `b` observes none;
and no peer ever receives a `peer_joined` carrying its own id. -/
theorem join_sequence_amended (s₀ : ServerState) (r a b : String) (hab : a ≠ b)
    (h₀ : s₀.peersOf r = []) :
    ((handleJoin s₀ (joinMsg r a)).2.1.filter
      (fun q => q.2.type == "peer_joined") = []) ∧
    ((handleJoin (handleJoin s₀ (joinMsg r a)).1 (joinMsg r b)).2.1.filter
      (fun q => q.2.type == "peer_joined") = [(a, peerJoinedMsg b)]) ∧
    (∀ q ∈ (handleJoin s₀ (joinMsg r a)).2.1
        ++ (handleJoin (handleJoin s₀ (joinMsg r a)).1 (joinMsg r b)).2.1,
      q.2.type = "peer_joined" → q.2.client_id ≠ q.1) := by
  have hpeers : (GetOrCreateRoom s₀ r).2.peers = [] := by
    unfold GetOrCreateRoom
    unfold ServerState.peersOf at h₀
    cases hc : List.lookup r s₀.rooms with
    | none => simp [hc]
    | some rm =>
      rw [hc] at h₀
      exact h₀
  have hout1 : (handleJoin s₀ (joinMsg r a)).2.1 = [(a, offerMsg)] := by
    simp [handleJoin, joinMsg, hpeers, Room.BroadcastExcept, Room.AddPeer,
      Room.GetOtherPeers, upsert]
  have hstate : List.lookup r (handleJoin s₀ (joinMsg r a)).1.rooms
      = some ⟨(GetOrCreateRoom s₀ r).2.id,
          [(a, ⟨a, some (GetOrCreateRoom s₀ r).2.id, []⟩)]⟩ := by
    simp [handleJoin, joinMsg, hpeers, Room.AddPeer, upsert, lookup_upsert_self]
  have hne : (a != b) = true := by
    simp [hab]
  have hG2 : GetOrCreateRoom (handleJoin s₀ (joinMsg r a)).1 r
      = ((handleJoin s₀ (joinMsg r a)).1,
         ⟨(GetOrCreateRoom s₀ r).2.id,
          [(a, ⟨a, some (GetOrCreateRoom s₀ r).2.id, []⟩)]⟩) := by
    unfold GetOrCreateRoom
    rw [hstate]
    rfl
  have hout2 : (handleJoin (handleJoin s₀ (joinMsg r a)).1 (joinMsg r b)).2.1
      = [(a, peerJoinedMsg b), (b, offerMsg)] := by
    set s₁ := (handleJoin s₀ (joinMsg r a)).1 with hs₁
    set rm₁ : Room := ⟨(GetOrCreateRoom s₀ r).2.id,
      [(a, ⟨a, some (GetOrCreateRoom s₀ r).2.id, []⟩)]⟩ with hrm₁
    have hG2' : GetOrCreateRoom s₁ r = (s₁, rm₁) := hG2
    simp [handleJoin, joinMsg, hG2', Room.BroadcastExcept, Room.AddPeer,
      Room.GetOtherPeers, upsert, hne, hrm₁, hab]
  refine ⟨?_, ?_, ?_⟩
  · rw [hout1]
    rfl
  · rw [hout2]
    rfl
  · rw [hout1, hout2]
    intro q hq
    simp only [List.mem_append, List.mem_cons, List.not_mem_nil, or_false] at hq
    rcases hq with hq | hq | hq <;> subst hq <;> intro hty
    · exact absurd hty (show ¬ offerMsg.type = "peer_joined" by decide)
    · exact fun hcb => hab hcb.symm
    · exact absurd hty (show ¬ offerMsg.type = "peer_joined" by decide)

/-- Witness for `join_sequence_amended`: ids `a`, `b`, room `r`, empty
initial registry. -/
theorem join_sequence_amended_witness :
    ((handleJoin emptyState (joinMsg "r" "a")).2.1.filter
      (fun q => q.2.type == "peer_joined") = []) ∧
    ((handleJoin (handleJoin emptyState (joinMsg "r" "a")).1
        (joinMsg "r" "b")).2.1.filter
      (fun q => q.2.type == "peer_joined") = [("a", peerJoinedMsg "b")]) ∧
    (∀ q ∈ (handleJoin emptyState (joinMsg "r" "a")).2.1
        ++ (handleJoin (handleJoin emptyState (joinMsg "r" "a")).1
            (joinMsg "r" "b")).2.1,
      q.2.type = "peer_joined" → q.2.client_id ≠ q.1) :=
  join_sequence_amended emptyState "r" "a" "b" (by decide) rfl

end Server

namespace Server

/-- C2 counterexample: on one connection, after a first `join` (`a` into
room `r`) the connection's peer is set, yet a second `join` message (`b`
into `r`) is not ignored — it is processed afresh: it triggers signaling
messages (`peer_joined{b}` to `a` and an offer to `b`), inserts a second
peer into the room's map, and replaces the connection's peer with a newly
created Peer. -/
theorem second_join_not_ignored_cx :
    (let st1 := handleWebSocketStep emptyState none (joinMsg "r" "a")
     let st2 := handleWebSocketStep st1.1 st1.2.1 (joinMsg "r" "b")
     st2.2.2 = [("a", peerJoinedMsg "b"), ("b", offerMsg)] ∧
     (st2.1.peersOf "r").map Prod.fst = ["a", "b"] ∧
     st2.2.1 = some ⟨"b", some "r", []⟩) := by
  decide

/-- C2 (amended): a `join` received on a connection is processed as a
fresh join whether or not the connection already has a peer — the current
peer plays no role; a new Peer carrying the message's client id is
constructed and inserted into the message's room, an initial offer is sent
to it, and the connection's peer reference is replaced by it. -/
theorem join_always_processed (s : ServerState) (cur : Option Peer)
    (m : SignalMessage) (ht : m.type = "join") :
    handleWebSocketStep s cur m = handleWebSocketStep s none m ∧
    ∃ p : Peer,
      (handleWebSocketStep s cur m).2.1 = some p ∧
      p.id = m.client_id ∧
      List.lookup m.client_id
        ((handleWebSocketStep s cur m).1.peersOf m.room) = some p ∧
      (m.client_id, offerMsg) ∈ (handleWebSocketStep s cur m).2.2 := by
  have hstep : ∀ c : Option Peer, handleWebSocketStep s c m
      = ((handleJoin s m).1, some (handleJoin s m).2.2, (handleJoin s m).2.1) := by
    intro c
    unfold handleWebSocketStep
    rw [ht]
    rfl
  refine ⟨by rw [hstep, hstep], (handleJoin s m).2.2, by rw [hstep], ?_, ?_, ?_⟩
  · simp [handleJoin, Room.AddPeer]
  · rw [hstep]
    show List.lookup m.client_id ((handleJoin s m).1.peersOf m.room) = _
    simp [handleJoin, ServerState.peersOf, Room.AddPeer, lookup_upsert_self]
  · rw [hstep]
    show (m.client_id, offerMsg) ∈ (handleJoin s m).2.1
    simp [handleJoin]

/-- Witness for `join_always_processed`: a connection whose peer is
already set receives a second join. -/
theorem join_always_processed_witness :
    handleWebSocketStep emptyState (some ⟨"a", some "r", []⟩) (joinMsg "r" "b")
      = handleWebSocketStep emptyState none (joinMsg "r" "b") :=
  (join_always_processed emptyState (some ⟨"a", some "r", []⟩)
    (joinMsg "r" "b") rfl).1

/-- C3: evaluation at the failing input.  With room `r = {a, b}`, running
`handlePeerDisconnect` for `a` twice: the first run removes `a` and sends
one `peer_left{a}` to `b`; the second run leaves the peer map unchanged
but — because `peer.Room` is never cleared and the post-removal broadcast
runs unconditionally — sends `b` a second `peer_left{a}`, so the server
disconnect path is not idempotent in its observable output.  The
client-side `Disconnect`, by contrast, is idempotent. -/
theorem disconnect_rerun_rebroadcasts :
    (let pa : Peer := ⟨"a", some "r", []⟩
     let s : ServerState :=
       ⟨[("r", ⟨"r", [("a", pa), ("b", ⟨"b", some "r", []⟩)]⟩)]⟩
     let d1 := handlePeerDisconnect s pa
     let d2 := handlePeerDisconnect d1.1 pa
     d1.2 = [("b", peerLeftMsg "a")] ∧
     d2.2 = [("b", peerLeftMsg "a")] ∧
     d2.1 = d1.1) ∧
    (∀ c : Client, (c.Disconnect).Disconnect = c.Disconnect) := by
  refine ⟨by decide, ?_⟩
  intro c
  unfold Client.Disconnect
  by_cases h : c.connected
  · rw [if_pos h]
    simp
  · rw [if_neg h, if_neg h]

end Server

namespace Server

/-- C4 counterexample: peer ids are not validated at join, so a room can
hold a peer whose id is the empty string (it joins like any other id); a
screenshot addressed to `target_id = ""` is dropped by the guard even
though a peer with exactly that id is present in the sender's room,
refuting "if a peer with id target_id is present in R, exactly that peer
is sent the screenshot". -/
theorem screenshot_empty_target_cx :
    (let j1 := handleJoin emptyState (joinMsg "r" "")
     let j2 := handleJoin j1.1 (joinMsg "r" "a")
     (Room.GetPeer ⟨"r", j2.1.peersOf "r"⟩ "" = some ⟨"", some "r", []⟩) ∧
     handleScreenshot j2.1 j2.2.2 (screenshotTo "" "x") = []) := by
  decide

/-- C4 (amended): when peer `P` (whose room back-reference names a room
present in the registry) sends `screenshot{target_id, data}`: if
`target_id` is non-empty and a peer with that id is in the room, exactly
that peer is sent `screenshot{client_id = P.id, data}` with the data field
unchanged; if no such peer is present, or `target_id` is empty (the empty
string doubles as the codec's absent-field sentinel), no message is sent
to any peer and the sender receives no error. -/
theorem screenshot_forwarding (s : ServerState) (p : Peer) (m : SignalMessage)
    (rid : String) (rm : Room)
    (hp : p.room = some rid) (hr : List.lookup rid s.rooms = some rm) :
    (∀ t, m.target_id ≠ "" → rm.GetPeer m.target_id = some t →
      handleScreenshot s p m = [(t.id, screenshotFrom p.id m.data)]) ∧
    (m.target_id ≠ "" → rm.GetPeer m.target_id = none →
      handleScreenshot s p m = []) ∧
    (m.target_id = "" → handleScreenshot s p m = []) := by
  refine ⟨?_, ?_, ?_⟩
  · intro t hne hget
    simp [handleScreenshot, hp, hne, hr, hget]
  · intro hne hget
    simp [handleScreenshot, hp, hne, hr, hget]
  · intro he
    simp [handleScreenshot, hp, he]

/-- Witness for `screenshot_forwarding`: room `r = {a, b}`, `a` sends a
screenshot to `b`. -/
theorem screenshot_forwarding_witness :
    (∀ t, (screenshotTo "b" "QUJD").target_id ≠ "" →
      Room.GetPeer ⟨"r", [("a", ⟨"a", some "r", []⟩), ("b", ⟨"b", some "r", []⟩)]⟩
          (screenshotTo "b" "QUJD").target_id = some t →
      handleScreenshot
          ⟨[("r", ⟨"r", [("a", ⟨"a", some "r", []⟩), ("b", ⟨"b", some "r", []⟩)]⟩)]⟩
          ⟨"a", some "r", []⟩ (screenshotTo "b" "QUJD")
        = [(t.id, screenshotFrom "a" (screenshotTo "b" "QUJD").data)]) ∧
    ((screenshotTo "b" "QUJD").target_id ≠ "" →
      Room.GetPeer ⟨"r", [("a", ⟨"a", some "r", []⟩), ("b", ⟨"b", some "r", []⟩)]⟩
          (screenshotTo "b" "QUJD").target_id = none →
      handleScreenshot
          ⟨[("r", ⟨"r", [("a", ⟨"a", some "r", []⟩), ("b", ⟨"b", some "r", []⟩)]⟩)]⟩
          ⟨"a", some "r", []⟩ (screenshotTo "b" "QUJD") = []) ∧
    ((screenshotTo "b" "QUJD").target_id = "" →
      handleScreenshot
          ⟨[("r", ⟨"r", [("a", ⟨"a", some "r", []⟩), ("b", ⟨"b", some "r", []⟩)]⟩)]⟩
          ⟨"a", some "r", []⟩ (screenshotTo "b" "QUJD") = []) :=
  screenshot_forwarding
    ⟨[("r", ⟨"r", [("a", ⟨"a", some "r", []⟩), ("b", ⟨"b", some "r", []⟩)]⟩)]⟩
    ⟨"a", some "r", []⟩ (screenshotTo "b" "QUJD") "r"
    ⟨"r", [("a", ⟨"a", some "r", []⟩), ("b", ⟨"b", some "r", []⟩)]⟩
    rfl (by decide)

end Server
